import Mathlib

/-!
Verification of the RAG chat-agent backend (`backend/app.py`).

The Python source is shallowly embedded below. External collaborators
(the Ollama embedding/chat gateways, the ChromaDB vector store, the
WebSocket transport) are modelled by explicit parameters: an embedding
function, a list-backed store whose `query` returns the nearest records
in ascending distance order, and explicit outcome values for the
fallible external calls (embedding, retrieval, token generation,
transport sends).
-/

namespace ChatAgent

/-- The system prompt string from the configuration section of `app.py`
(Python line continuations join it into a single line). -/
def SYSTEM_PROMPT : String :=
  "You are Sya, Yoseph Bernandus\x27s personal AI assistant. When someone asks who you are, introduce yourself as: \"Hi! I\x27m Sya, Yoseph\x27s personal assistant. You can ask me anything related to Yoseph!\" Always answer questions about Yoseph based on the provided context. Be friendly and helpful."

/-- One record of the ChromaDB collection: id, embedding vector, document
text and the `source` metadata field. Embedding components are modelled
as integers; only order properties of distances are used. -/
structure StoredDoc where
  id : String
  embedding : List Int
  content : String
  source : String
deriving Repr, DecidableEq

/-- One formatted result of `search_documents`: the dict
`{id, content, source, score}` built at lines 89-98 of `app.py`. -/
structure DocResult where
  id : String
  content : String
  source : String
  score : Int
deriving Repr, DecidableEq

/-- Squared Euclidean distance between two embedding vectors (the
vector store's distance metric; lower = more similar). -/
def sqDist (a b : List Int) : Int :=
  (List.zipWith (fun x y => (x - y) ^ 2) a b).sum

/-- Model of `collection.query(query_embeddings=[e], n_results=n)`:
the store's records paired with their distance to the query embedding,
ordered ascending by distance, truncated to the first `n`. -/
def collectionQuery (store : List StoredDoc) (qemb : List Int) (n : Nat) :
    List (StoredDoc × Int) :=
  (List.insertionSort (fun p q => p.2 ≤ q.2)
    (store.map (fun d => (d, sqDist qemb d.embedding)))).take n

/-- `search_documents(query, n_results=3)` (`app.py` lines 71-100):
embed the query, query the collection, format each hit as
`{id, content, source, score}`. -/
def search_documents (embedOf : String → List Int) (store : List StoredDoc)
    (query : String) (n_results : Nat := 3) : List DocResult :=
  (collectionQuery store (embedOf query) n_results).map
    (fun p => ⟨p.1.id, p.1.content, p.1.source, p.2⟩)

/-- `add_document` (`app.py` lines 233-255): a fresh `doc_id` is drawn,
`create_embedding` runs (its outcome is the `embedResult` parameter; an
exception aborts the request before `collection.add`), then one
`collection.add` writes the single record. Returns the new store
contents and the endpoint's result (`{success, id}` or the error). -/
def add_document (store : List StoredDoc) (docId content source : String)
    (embedResult : Except Unit (List Int)) :
    List StoredDoc × Except Unit String :=
  match embedResult with
  | .error e => (store, .error e)
  | .ok emb => (store ++ [⟨docId, emb, content, source⟩], .ok docId)

/-- `collection.delete(ids=...)`: removes every record whose id occurs in
`ids`. -/
def collectionDelete (store : List StoredDoc) (ids : List String) :
    List StoredDoc :=
  store.filter (fun d => ¬ ids.contains d.id)

/-- `clear_documents` (`app.py` lines 326-338): read all ids; when there
is at least one, delete exactly those ids; report `deleted` as the
number of ids read. Returns the new store contents and the count. -/
def clear_documents (store : List StoredDoc) : List StoredDoc × Nat :=
  let ids := store.map (fun d => d.id)
  (if ids.length > 0 then collectionDelete store ids else store, ids.length)

/-- `list_documents` (`app.py` lines 258-276): `{count, documents}` with
one `(id, content, source)` triple per stored record. -/
def list_documents (store : List StoredDoc) :
    Nat × List (String × String × String) :=
  (store.length, store.map (fun d => (d.id, d.content, d.source)))

/-- One chat message / conversation turn: the dicts
`{"role": ..., "content": ...}` used throughout `app.py`. -/
structure Turn where
  role : String
  content : String
deriving Repr, DecidableEq

/-- The preview dict sent inside a sources event:
`{content: doc["content"][:100] + "...", source, score}`. -/
structure SourcePreview where
  content : String
  source : String
  score : Int
deriving Repr, DecidableEq

/-- Build the preview of one retrieved document. -/
def previewOf (d : DocResult) : SourcePreview :=
  ⟨d.content.take 100 ++ "...", d.source, d.score⟩

/-- An outbound stream event, over SSE (`{type, content}`) or over the
WebSocket (`{type, data}`). -/
inductive Event where
  | sources (data : List SourcePreview)
  | token (data : String)
  | done
deriving Repr, DecidableEq

/-- Context string built from retrieved documents:
`"\n\n".join([doc["content"] for doc in relevant_docs])`
(`app.py` lines 139, 203, 386). -/
def assembleContext (docs : List DocResult) : String :=
  String.intercalate "\n\n" (docs.map (fun d => d.content))

/-- The rag-mode prompt f-string of the WebSocket handler
(`app.py` lines 387-393), with its literal indentation. -/
def wsRagPrompt (context message : String) : String :=
  "Answer the question based on the following context. If the context doesn\x27t contain relevant information, say so.\n\n        Context:\n        "
    ++ context ++ "\n\n        Question: " ++ message ++ "\n        Answer:"

/-- The rag-mode prompt f-string of `chat_rag_stream`
(`app.py` lines 204-211); it has an extra blank line before `Answer:`. -/
def sseRagPrompt (context message : String) : String :=
  "Answer the question based on the following context. If the context doesn\x27t contain relevant information, say so.\n\n        Context:\n        "
    ++ context ++ "\n\n        Question: " ++ message ++ "\n\n        Answer:"

/-- Step 5 of the WebSocket handler (`app.py` lines 399-407): the
message list handed to `ollama.chat` — system prompt, then the history
in order, then the current prompt as a `user` message. -/
def buildMessages (history : List Turn) (prompt : String) : List Turn :=
  ⟨"system", SYSTEM_PROMPT⟩ :: (history.map (fun h => ⟨h.role, h.content⟩))
    ++ [⟨"user", prompt⟩]

/-- The chunks that pass the `if token:` guard, i.e. the non-empty ones
(`app.py` lines 222-223 and 412-413). -/
def emittedTokens (chunks : List String) : List String :=
  chunks.filter (fun t => ¬ t = "")

/-- The token events sent for a chunk stream, in generation order. -/
def tokenEvents (chunks : List String) : List Event :=
  (emittedTokens chunks).map Event.token

/-- Concatenation of a list of strings in order. -/
def concatTokens : List String → String
  | [] => ""
  | t :: ts => t ++ concatTokens ts

/-- `full_response` accumulated by the WebSocket handler: the
concatenation, in generation order, of the chunks that passed the
`if token:` guard (`app.py` lines 410-414). -/
def fullResponse (chunks : List String) : String :=
  concatTokens (emittedTokens chunks)

/-- Outcome of the streamed `ollama.chat` call plus the surrounding
sends, as observed by the handler:
`ok chunks` — the chunk stream ran to completion, every token send and
the final done send succeeded;
`abortedGen leading` — the stream or a token send raised (generation
failure or client disconnect) after the chunks `leading` were processed;
`abortedDone chunks` — the whole stream was processed but sending the
done event raised (disconnect). -/
inductive GenResult where
  | ok (chunks : List String)
  | abortedGen (leading : List String)
  | abortedDone (chunks : List String)
deriving Repr, DecidableEq

/-- Result of one WebSocket turn: the events delivered to the client,
the session history after the turn, whether the done event was sent, and
the message list handed to the generation call (`none` when the turn
aborted before reaching it). -/
structure TurnResult where
  events : List Event
  history : List Turn
  doneSent : Bool
  genInput : Option (List Turn)
deriving Repr, DecidableEq

/-- Steps 6-8 of the WebSocket handler (`app.py` lines 409-422): stream
chunks (emitting non-empty ones), then send done, then append the user
and assistant turns. An exception anywhere leaves `history` untouched
because the appends are the last statements of the turn. -/
def runGeneration (history : List Turn) (message : String)
    (msgs : List Turn) (pre : List Event) (gen : GenResult) : TurnResult :=
  match gen with
  | .abortedGen leading => ⟨pre ++ tokenEvents leading, history, false, some msgs⟩
  | .abortedDone chunks => ⟨pre ++ tokenEvents chunks, history, false, some msgs⟩
  | .ok chunks =>
      ⟨pre ++ tokenEvents chunks ++ [Event.done],
       history ++ [⟨"user", message⟩, ⟨"assistant", fullResponse chunks⟩],
       true, some msgs⟩

/-- One iteration of the WebSocket loop (`app.py` lines 359-422) after
`receive_json` returned `data`. `inMsg`/`inMode` are `data.get("message")`
/`data.get("mode")` (absent fields default to `""` and `"rag"`).
`retrieval` is the outcome of `search_documents` (an embedding or store
query failure raises), `sourcesOk` whether the sources send succeeded,
`gen` the generation outcome. Any raise propagates out of the loop, so
an aborted turn ends with the events delivered so far and an unchanged
history. -/
def processTurn (history : List Turn) (inMsg inMode : Option String)
    (retrieval : Except Unit (List DocResult)) (sourcesOk : Bool)
    (gen : GenResult) : TurnResult :=
  let message := inMsg.getD ""
  let mode := inMode.getD "rag"
  if mode = "rag" then
    match retrieval with
    | .error _ => ⟨[], history, false, none⟩
    | .ok docs =>
      if sourcesOk then
        runGeneration history message
          (buildMessages history (wsRagPrompt (assembleContext docs) message))
          [Event.sources (docs.map previewOf)] gen
      else ⟨[], history, false, none⟩
  else
    runGeneration history message (buildMessages history message) [] gen

/-- The event sequence yielded by `generate()` in `chat_rag_stream`
(`app.py` lines 183-228) when retrieval and the full stream succeed:
one sources event, the non-empty tokens in order, one done event. -/
def sseStream (docs : List DocResult) (chunks : List String) : List Event :=
  Event.sources (docs.map previewOf) :: (tokenEvents chunks ++ [Event.done])

/-- Predicate: the event is a sources event. -/
def isSources : Event → Bool
  | .sources _ => true
  | _ => false

/-- Predicate: the event is a done event. -/
def isDone : Event → Bool
  | .done => true
  | _ => false

/-- The payloads of the token events of an event list, in order. -/
def tokenPayloads (evs : List Event) : List String :=
  evs.filterMap (fun e => match e with | .token s => some s | _ => none)

/-- The tail part of a separator join: `sep ++ a` for each element. -/
def sepTail (sep : String) : List String → String
  | [] => ""
  | a :: as => sep ++ a ++ sepTail sep as

theorem emittedTokens_ne_empty {chunks : List String} {t : String}
    (ht : t ∈ emittedTokens chunks) : t ≠ "" := by
  simp only [emittedTokens, List.mem_filter, decide_not] at ht
  simpa using ht.2

theorem concatTokens_emittedTokens (chunks : List String) :
    concatTokens (emittedTokens chunks) = concatTokens chunks := by
  induction chunks with
  | nil => rfl
  | cons c cs ih =>
    by_cases hc : c = ""
    · subst hc
      simpa [emittedTokens, List.filter_cons, concatTokens] using ih
    · simp only [emittedTokens, List.filter_cons, hc, concatTokens] at ih ⊢
      rw [ih]

theorem tokenPayloads_append (a b : List Event) :
    tokenPayloads (a ++ b) = tokenPayloads a ++ tokenPayloads b := by
  simp [tokenPayloads, List.filterMap_append]

theorem tokenPayloads_tokenEvents (chunks : List String) :
    tokenPayloads (tokenEvents chunks) = emittedTokens chunks := by
  simp only [tokenPayloads, tokenEvents, List.filterMap_map]
  induction emittedTokens chunks with
  | nil => rfl
  | cons c cs ih => simpa [List.filterMap_cons] using ih

theorem tokenPayloads_sources (data : List SourcePreview) :
    tokenPayloads [Event.sources data] = [] := rfl

theorem tokenPayloads_done : tokenPayloads [Event.done] = [] := rfl

theorem runGeneration_done_history (history : List Turn) (message : String)
    (msgs : List Turn) (pre : List Event) (gen : GenResult)
    (hpre : tokenPayloads pre = [])
    (h : (runGeneration history message msgs pre gen).doneSent = true) :
    (runGeneration history message msgs pre gen).history =
      history ++ [⟨"user", message⟩, ⟨"assistant",
        concatTokens
          (tokenPayloads (runGeneration history message msgs pre gen).events)⟩] := by
  cases gen with
  | ok chunks =>
      simp [runGeneration, tokenPayloads_append, hpre,
        tokenPayloads_tokenEvents, tokenPayloads_done, fullResponse]
  | abortedGen l => simp [runGeneration] at h
  | abortedDone l => simp [runGeneration] at h

theorem runGeneration_not_done_history (history : List Turn) (message : String)
    (msgs : List Turn) (pre : List Event) (gen : GenResult)
    (h : (runGeneration history message msgs pre gen).doneSent = false) :
    (runGeneration history message msgs pre gen).history = history := by
  cases gen with
  | ok chunks => simp [runGeneration] at h
  | abortedGen l => rfl
  | abortedDone l => rfl

/-- C1: a WebSocket turn that completes normally (the done event is
sent) appends exactly two entries to the session history — a `user` turn
holding the inbound message followed by an `assistant` turn — and the
assistant content is the concatenation, in emission order, of the
payloads of all token events of the turn; both entries are appended
together. -/
theorem completed_turn_appends_user_and_assistant
    (history : List Turn) (inMsg inMode : Option String)
    (retrieval : Except Unit (List DocResult)) (sourcesOk : Bool)
    (gen : GenResult)
    (h : (processTurn history inMsg inMode retrieval sourcesOk gen).doneSent
          = true) :
    (processTurn history inMsg inMode retrieval sourcesOk gen).history =
      history ++ [⟨"user", inMsg.getD ""⟩, ⟨"assistant",
        concatTokens (tokenPayloads
          (processTurn history inMsg inMode retrieval sourcesOk gen).events)⟩]
    ∧ (processTurn history inMsg inMode retrieval sourcesOk gen).history.length
        = history.length + 2 := by
  have key :
      (processTurn history inMsg inMode retrieval sourcesOk gen).history =
        history ++ [⟨"user", inMsg.getD ""⟩, ⟨"assistant",
          concatTokens (tokenPayloads
            (processTurn history inMsg inMode retrieval sourcesOk gen).events)⟩] := by
    unfold processTurn at h ⊢
    by_cases hm : inMode.getD "rag" = "rag"
    · simp only [hm, if_true] at h ⊢
      cases retrieval with
      | error e => simp at h
      | ok docs =>
        cases sourcesOk with
        | false => simp at h
        | true =>
          simp only [if_true] at h ⊢
          exact runGeneration_done_history _ _ _ _ _ (tokenPayloads_sources _) h
    · simp only [hm, if_false] at h ⊢
      exact runGeneration_done_history _ _ _ _ _ rfl h
  refine ⟨key, ?_⟩
  rw [key]
  simp

/-- C2: a WebSocket turn aborted before the done event — retrieval
failure (embedding call or vector-store query), sources-send failure,
generation failure or disconnect mid-stream, or failure of the done
send — leaves the session history exactly as it was. -/
theorem aborted_turn_leaves_history_unchanged
    (history : List Turn) (inMsg inMode : Option String)
    (retrieval : Except Unit (List DocResult)) (sourcesOk : Bool)
    (gen : GenResult)
    (h : (processTurn history inMsg inMode retrieval sourcesOk gen).doneSent
          = false) :
    (processTurn history inMsg inMode retrieval sourcesOk gen).history
      = history := by
  unfold processTurn at h ⊢
  by_cases hm : inMode.getD "rag" = "rag"
  · simp only [hm, if_true] at h ⊢
    cases retrieval with
    | error e => rfl
    | ok docs =>
      cases sourcesOk with
      | false => rfl
      | true =>
        simp only [if_true] at h ⊢
        exact runGeneration_not_done_history _ _ _ _ _ h
  · simp only [hm, if_false] at h ⊢
    exact runGeneration_not_done_history _ _ _ _ _ h

/-- Witness for C1 at a concrete completed turn. -/
theorem completed_turn_appends_user_and_assistant_witness :
    (processTurn [] (some "hi") (some "rag") (.ok []) true
        (.ok ["a", "", "b"])).history =
      [] ++ [⟨"user", (some "hi").getD ""⟩, ⟨"assistant",
        concatTokens (tokenPayloads
          (processTurn [] (some "hi") (some "rag") (.ok []) true
            (.ok ["a", "", "b"])).events)⟩]
    ∧ (processTurn [] (some "hi") (some "rag") (.ok []) true
        (.ok ["a", "", "b"])).history.length = ([] : List Turn).length + 2 :=
  completed_turn_appends_user_and_assistant [] (some "hi") (some "rag")
    (.ok []) true (.ok ["a", "", "b"]) (by decide)

/-- Witness for C2 at a concrete turn aborted mid-generation. -/
theorem aborted_turn_leaves_history_unchanged_witness :
    (processTurn [⟨"user", "q"⟩] (some "hi") (some "rag") (.ok [])
        true (.abortedGen ["a"])).history = [⟨"user", "q"⟩] :=
  aborted_turn_leaves_history_unchanged [⟨"user", "q"⟩] (some "hi")
    (some "rag") (.ok []) true (.abortedGen ["a"]) (by decide)

theorem intercalate_go_eq (sep : String) (l : List String) :
    ∀ acc, String.intercalate.go acc sep l = acc ++ sepTail sep l := by
  induction l with
  | nil => intro acc; simp [String.intercalate.go, sepTail]
  | cons a as ih =>
      intro acc
      simp only [String.intercalate.go, sepTail, ih, String.append_assoc]

theorem assembleContext_nil : assembleContext [] = "" := rfl

theorem assembleContext_cons (d : DocResult) (ds : List DocResult) :
    assembleContext (d :: ds) =
      d.content ++ sepTail "\n\n" (ds.map (fun x => x.content)) := by
  simp [assembleContext, String.intercalate, intercalate_go_eq]

/-- C3 (amended): on the SSE endpoint, and on successful WebSocket
rag-mode turns, exactly one sources event (possibly with an empty list)
is emitted first — before any token event — the non-empty tokens follow
in generation order, and exactly one done event terminates the turn; on
WebSocket direct-mode turns no sources event is emitted at all: the
events are the tokens in generation order followed by exactly one done
event. -/
theorem stream_event_order
    (history : List Turn) (msg : String) (docs : List DocResult)
    (chunks : List String) :
    ((sseStream docs chunks).countP isSources = 1
      ∧ (sseStream docs chunks).head?
          = some (Event.sources (docs.map previewOf))
      ∧ (sseStream docs chunks).countP isDone = 1
      ∧ (sseStream docs chunks).getLast? = some Event.done
      ∧ tokenPayloads (sseStream docs chunks) = emittedTokens chunks)
    ∧ (processTurn history (some msg) (some "rag") (.ok docs) true
        (.ok chunks)).events = sseStream docs chunks
    ∧ ((processTurn history (some msg) (some "direct") (.ok docs) true
          (.ok chunks)).events = tokenEvents chunks ++ [Event.done]
      ∧ (processTurn history (some msg) (some "direct") (.ok docs) true
          (.ok chunks)).events.countP isSources = 0
      ∧ (processTurn history (some msg) (some "direct") (.ok docs) true
          (.ok chunks)).events.getLast? = some Event.done) := by
  have hdirect :
      (processTurn history (some msg) (some "direct") (.ok docs) true
        (.ok chunks)).events = tokenEvents chunks ++ [Event.done] := by
    rw [processTurn]
    simp only [Option.getD_some]
    rw [if_neg (by decide)]
    simp [runGeneration]
  refine ⟨⟨?_, rfl, ?_, ?_, ?_⟩, ?_, hdirect, ?_, ?_⟩
  · simp [sseStream, tokenEvents, isSources, List.countP_cons,
      List.countP_append, List.countP_map, Function.comp_def, List.countP_eq_zero]
  · simp [sseStream, tokenEvents, isDone, List.countP_cons,
      List.countP_append, List.countP_map, Function.comp_def, List.countP_eq_zero]
  · rw [show sseStream docs chunks
        = (Event.sources (docs.map previewOf) :: tokenEvents chunks)
            ++ [Event.done] from by simp [sseStream]]
    exact List.getLast?_concat _
  · rw [show sseStream docs chunks
        = [Event.sources (docs.map previewOf)]
            ++ (tokenEvents chunks ++ [Event.done]) from by simp [sseStream]]
    rw [tokenPayloads_append, tokenPayloads_append, tokenPayloads_sources,
      tokenPayloads_tokenEvents, tokenPayloads_done]
    simp
  · rw [processTurn]
    simp only [Option.getD_some, if_pos rfl]
    simp [runGeneration, sseStream]
  · rw [hdirect]
    simp [tokenEvents, isSources, List.countP_append, List.countP_cons,
      List.countP_map, Function.comp_def, List.countP_eq_zero]
  · rw [hdirect]
    exact List.getLast?_concat _

/-- C3 counterexample: a successful WebSocket turn in direct mode emits
token and done events but no sources event, so it is not the case that
every successful turn on the WebSocket channel, in both modes, emits
exactly one sources event before the tokens. -/
theorem direct_mode_turn_emits_no_sources :
    (processTurn [] (some "hi") (some "direct") (.ok []) true
        (.ok ["hello"])).doneSent = true
    ∧ (processTurn [] (some "hi") (some "direct") (.ok []) true
        (.ok ["hello"])).events = [Event.token "hello", Event.done]
    ∧ (processTurn [] (some "hi") (some "direct") (.ok []) true
        (.ok ["hello"])).events.countP isSources = 0 := by
  refine ⟨?_, ?_, ?_⟩ <;> decide

/-- C4: `search_documents` returns at most `n_results` matches, ordered
by non-decreasing distance score; on an empty store it returns the empty
list rather than an error; `n_results` defaults to 3. -/
theorem search_documents_spec
    (embedOf : String → List Int) (store : List StoredDoc)
    (query : String) (k : Nat) :
    (search_documents embedOf store query k).length ≤ k
    ∧ (search_documents embedOf store query k).Pairwise
        (fun a b => a.score ≤ b.score)
    ∧ search_documents embedOf [] query k = []
    ∧ search_documents embedOf store query
        = search_documents embedOf store query 3 := by
  refine ⟨?_, ?_, by simp [search_documents, collectionQuery], rfl⟩
  · simp only [search_documents, collectionQuery, List.length_map]
    exact List.length_take_le _ _
  · haveI htot : IsTotal (StoredDoc × Int) (fun p q => p.2 ≤ q.2) :=
      ⟨fun a b => le_total a.2 b.2⟩
    haveI htr : IsTrans (StoredDoc × Int) (fun p q => p.2 ≤ q.2) :=
      ⟨fun _ _ _ h1 h2 => le_trans h1 h2⟩
    have hsorted :=
      List.sorted_insertionSort (fun (p q : StoredDoc × Int) => p.2 ≤ q.2)
        (store.map (fun d => (d, sqDist (embedOf query) d.embedding)))
    exact (hsorted.take).map _ (fun a b h => h)

/-- C5: the message list handed to the generation call is exactly the
system prompt, then the history turns in arrival order, then one final
user message; in rag mode the final message is the context-wrapped
template around the context and the query, and in any non-rag mode it is
exactly the query string; the list is a function of
(history, context, query, mode) alone. -/
theorem generation_input_messages
    (history : List Turn) (msg mode : String) (docs : List DocResult)
    (retrieval : Except Unit (List DocResult)) (sOk : Bool)
    (gen gen' : GenResult) (hm : mode ≠ "rag") :
    (processTurn history (some msg) (some "rag") (.ok docs) true gen).genInput
      = some (⟨"system", SYSTEM_PROMPT⟩
          :: history.map (fun h => ⟨h.role, h.content⟩)
          ++ [⟨"user", wsRagPrompt (assembleContext docs) msg⟩])
    ∧ (processTurn history (some msg) (some mode) retrieval sOk gen').genInput
      = some (⟨"system", SYSTEM_PROMPT⟩
          :: history.map (fun h => ⟨h.role, h.content⟩)
          ++ [⟨"user", msg⟩]) := by
  constructor
  · rw [processTurn]
    simp only [Option.getD_some, if_pos rfl]
    cases gen <;> simp [runGeneration, buildMessages]
  · cases retrieval with
    | error e =>
        rw [processTurn]
        simp only [Option.getD_some]
        rw [if_neg hm]
        cases gen' <;> simp [runGeneration, buildMessages]
    | ok docs2 =>
        rw [processTurn]
        simp only [Option.getD_some]
        rw [if_neg hm]
        cases gen' <;> simp [runGeneration, buildMessages]

/-- Witness for C5 at a concrete rag turn and a concrete direct turn. -/
theorem generation_input_messages_witness :
    (processTurn [] (some "q") (some "rag") (.ok []) true
        (.ok ["t"])).genInput
      = some (⟨"system", SYSTEM_PROMPT⟩
          :: ([] : List Turn).map (fun h => ⟨h.role, h.content⟩)
          ++ [⟨"user", wsRagPrompt (assembleContext []) "q"⟩])
    ∧ (processTurn [] (some "q") (some "direct") (.ok []) true
        (.ok ["t"])).genInput
      = some (⟨"system", SYSTEM_PROMPT⟩
          :: ([] : List Turn).map (fun h => ⟨h.role, h.content⟩)
          ++ [⟨"user", "q"⟩]) :=
  generation_input_messages [] "q" "direct" [] (.ok []) true
    (.ok ["t"]) (.ok ["t"]) (by decide)

/-- C6 (amended): the assembled context is the matches' contents joined
in retrieval order (nearest first) separated by a blank line, and zero
matches yield the empty string; however, no maximum character budget is
enforced and no trailing match is ever dropped — the context length is
unbounded (see the counterexample). -/
theorem assembleContext_joins_contents (d e : DocResult)
    (ds : List DocResult) :
    assembleContext [] = ""
    ∧ assembleContext [d] = d.content
    ∧ assembleContext (d :: e :: ds)
        = d.content ++ "\n\n" ++ assembleContext (e :: ds) := by
  refine ⟨rfl, ?_, ?_⟩
  · rw [assembleContext_cons]
    simp [sepTail]
  · rw [assembleContext_cons, assembleContext_cons]
    simp [sepTail, List.map_cons, String.append_assoc]

/-- C6 counterexample: there is no character budget that bounds the
assembled context — for every bound there is a match list (a single
oversized document) whose assembled context is strictly longer, so the
claim that the total length never exceeds a configured maximum and that
trailing matches are dropped when it would be exceeded is false of the
code, which joins all matches unconditionally. -/
theorem assembleContext_unbounded :
    ¬ ∃ B : Nat, ∀ docs : List DocResult,
        (assembleContext docs).length ≤ B := by
  rintro ⟨B, hB⟩
  have h := hB [⟨"i", String.mk (List.replicate (B + 1) 'a'), "s", 0⟩]
  rw [show assembleContext
        [⟨"i", String.mk (List.replicate (B + 1) 'a'), "s", 0⟩]
      = String.mk (List.replicate (B + 1) 'a') from by
    rw [assembleContext_cons]; simp [sepTail]] at h
  simp at h

/-- C7: `add_document` writes exactly one record `(id, embedding,
content, source)` to the store in a single upsert when the embedding
call succeeds, and when the embedding call fails the store is left
completely unchanged — no record, partial or otherwise, is written; a
fresh id occurs exactly once in the resulting store. -/
theorem add_document_spec
    (store : List StoredDoc) (docId content source : String)
    (emb : List Int) (hfresh : docId ∉ store.map (fun d => d.id)) :
    (add_document store docId content source (.error ())).1 = store
    ∧ (add_document store docId content source (.error ())).2 = .error ()
    ∧ (add_document store docId content source (.ok emb)).1
        = store ++ [⟨docId, emb, content, source⟩]
    ∧ (add_document store docId content source (.ok emb)).2 = .ok docId
    ∧ ((add_document store docId content source (.ok emb)).1.map
        (fun d => d.id)).count docId = 1 := by
  refine ⟨rfl, rfl, rfl, rfl, ?_⟩
  simp only [add_document, List.map_append, List.count_append, List.map_cons,
    List.map_nil]
  rw [List.count_eq_zero.mpr hfresh]
  simp [List.count_cons]

/-- Witness for C7 on a concrete store and fresh id. -/
theorem add_document_spec_witness :
    (add_document [⟨"a", [1], "c0", "s0"⟩] "b" "c1" "s1" (.error ())).1
        = [⟨"a", [1], "c0", "s0"⟩]
    ∧ (add_document [⟨"a", [1], "c0", "s0"⟩] "b" "c1" "s1" (.error ())).2
        = .error ()
    ∧ (add_document [⟨"a", [1], "c0", "s0"⟩] "b" "c1" "s1" (.ok [2])).1
        = [⟨"a", [1], "c0", "s0"⟩] ++ [⟨"b", [2], "c1", "s1"⟩]
    ∧ (add_document [⟨"a", [1], "c0", "s0"⟩] "b" "c1" "s1" (.ok [2])).2
        = .ok "b"
    ∧ ((add_document [⟨"a", [1], "c0", "s0"⟩] "b" "c1" "s1" (.ok [2])).1.map
        (fun d => d.id)).count "b" = 1 :=
  add_document_spec [⟨"a", [1], "c0", "s0"⟩] "b" "c1" "s1" [2] (by decide)

/-- C8: `clear_documents` removes every record and reports the number of
records present before the call (0 on an already-empty store), and a
`list_documents` performed afterwards returns an empty document sequence
with count 0. -/
theorem clear_documents_spec (store : List StoredDoc) :
    (clear_documents store).2 = store.length
    ∧ (clear_documents store).1 = []
    ∧ list_documents (clear_documents store).1 = (0, [])
    ∧ (clear_documents ([] : List StoredDoc)).2 = 0 := by
  have hempty : (clear_documents store).1 = [] := by
    cases store with
    | nil => rfl
    | cons d ds =>
      simp only [clear_documents, collectionDelete, List.length_map,
        List.length_cons, gt_iff_lt, Nat.succ_pos, if_pos]
      rw [List.filter_eq_nil_iff]
      intro a ha
      simp only [decide_not, Bool.not_eq_true, decide_eq_false_iff_not,
        not_not, Bool.not_eq_false]
      refine List.contains_iff_exists_mem_beq.mpr ⟨a.id, ?_, ?_⟩
      · exact List.mem_map.mpr ⟨a, ha, rfl⟩
      · simp
  refine ⟨by simp [clear_documents], hempty, ?_, rfl⟩
  rw [hempty]
  rfl

/-- C9 (amended): an inbound frame whose message or mode field is
missing is not rejected and produces no validation error: the message
defaults to the empty string and the mode to `"rag"`, and the turn then
proceeds exactly as a rag turn on that defaulted input, emitting its
event stream and mutating history as usual. -/
theorem missing_fields_default_and_proceed
    (history : List Turn) (retrieval : Except Unit (List DocResult))
    (sOk : Bool) (gen : GenResult) :
    processTurn history none none retrieval sOk gen
      = processTurn history (some "") (some "rag") retrieval sOk gen := rfl

/-- C9 counterexample: a turn request with no message field at all is
processed in full — the sources, token and done events are emitted and
the history is mutated — instead of being rejected with a validation
error before any event. -/
theorem missing_message_processed_not_rejected :
    (processTurn [] none none (.ok []) true (.ok ["x"])).events
      = [Event.sources [], Event.token "x", Event.done]
    ∧ (processTurn [] none none (.ok []) true (.ok ["x"])).history
      = [⟨"user", ""⟩, ⟨"assistant", "x"⟩]
    ∧ (processTurn [] none none (.ok []) true (.ok ["x"])).doneSent
      = true := by
  refine ⟨?_, ?_, ?_⟩ <;> decide

/-- C10: generation chunks whose content is the empty string are
silently skipped on both streaming interfaces — every emitted token
event carries a non-empty payload — and the assistant content committed
to history is the concatenation of the non-empty chunks, which equals
the concatenation of all chunks, so the skipping never changes the
committed text. -/
theorem empty_chunks_skipped
    (history : List Turn) (msg : String) (docs : List DocResult)
    (chunks : List String) :
    (∀ s, Event.token s ∈ (processTurn history (some msg) (some "rag")
        (.ok docs) true (.ok chunks)).events → s ≠ "")
    ∧ (∀ s, Event.token s ∈ sseStream docs chunks → s ≠ "")
    ∧ fullResponse chunks = concatTokens chunks
    ∧ (processTurn history (some msg) (some "rag") (.ok docs) true
        (.ok chunks)).history.getLast?
      = some ⟨"assistant", concatTokens chunks⟩ := by
  have hevents : (processTurn history (some msg) (some "rag") (.ok docs)
      true (.ok chunks)).events = sseStream docs chunks := by
    rw [processTurn]
    simp only [Option.getD_some, if_pos rfl]
    simp [runGeneration, sseStream]
  have hmem : ∀ s, Event.token s ∈ sseStream docs chunks → s ≠ "" := by
    intro s hs
    simp only [sseStream, List.mem_cons, List.mem_append,
      List.mem_singleton] at hs
    rcases hs with h | h | h
    · exact absurd h (by simp)
    · simp only [tokenEvents, List.mem_map] at h
      obtain ⟨a, ha, hae⟩ := h
      cases hae
      exact emittedTokens_ne_empty ha
    · exact absurd h (by simp)
  have hfull : fullResponse chunks = concatTokens chunks :=
    concatTokens_emittedTokens chunks
  refine ⟨fun s hs => hmem s (hevents ▸ hs), hmem, hfull, ?_⟩
  rw [processTurn]
  simp only [Option.getD_some, if_pos rfl]
  simp [runGeneration, hfull]

end ChatAgent
